import Mathlib

/-!
Verification of the `thread_pool` class of `src/thread_pool.hpp` (a C++17
thread pool, v2.0.0).  The pool state that is shared under the single mutex
`tasks_mutex` — the task queue `tasks`, the counter `tasks_total`, the flags
`running` and `paused`, and `thread_count` — is embedded as the structure
`PoolState`.  Each member function is translated into a pure function on
`PoolState`; a function that can also signal a condition variable or write
the atomic flag `running` additionally returns the list of those `Event`s,
in program order.  A queued `std::function<void()>`'s behaviour when invoked
is abstracted to its outcome: normal return or a raised exception
(`TaskBody := Except Err Unit`).
-/

set_option autoImplicit false

namespace thread_pool

/-- Exceptions are identified by a code; only identity of the exception
object matters for the properties below. -/
abbrev Err := Nat

/-- The observable outcome of invoking one queued `std::function<void()>`:
`Except.ok ()` models normal return, `Except.error e` models the body
raising exception `e`. -/
abbrev TaskBody := Except Err Unit

/-- Whether a condition-variable signal is `notify_one` or `notify_all`. -/
inductive NotifyKind
  | one
  | all
  deriving DecidableEq, Repr

/-- Side effects of a member function besides the mutation of `PoolState`:
writes to the atomic flag `running` and condition-variable signals, in
program order. -/
inductive Event
  | runningWrite (b : Bool)
  | notifyTaskAvailable (k : NotifyKind)
  | notifyTasksDone (k : NotifyKind)
  deriving DecidableEq, Repr

/-- The mutable pool state of `class thread_pool`
(src/thread_pool.hpp lines 415-458): the queue `tasks` (front first), the
counter `tasks_total`, the atomic flags `running` and `paused`, and
`thread_count`. -/
structure PoolState where
  tasks : List TaskBody
  tasks_total : Nat
  running : Bool
  paused : Bool
  thread_count : Nat

/-- The constructor `thread_pool::thread_pool(_thread_count)`
(src lines 51-55): it stores `_thread_count` unchanged
(`thread_count(_thread_count)`) — note that no substitution of hardware
concurrency happens for the argument `0`, despite the doc comment on the
constructor.  Flags take their member initialisers `running{true}`,
`paused{false}`; the queue starts empty and `tasks_total{0}`. -/
def construct (c : Nat) : PoolState :=
  ⟨[], 0, true, false, c⟩

/-- `get_tasks_queued_unprotected` (src lines 386-389): `tasks.size()`. -/
def get_tasks_queued_unprotected (s : PoolState) : Nat :=
  s.tasks.length

/-- `get_tasks_running_unprotected` (src lines 396-399):
`tasks_total - tasks.size()`.  Nat subtraction here agrees with the `ui32`
subtraction of the source whenever `tasks.size() ≤ tasks_total`, which is
proved to be invariant below. -/
def get_tasks_running_unprotected (s : PoolState) : Nat :=
  s.tasks_total - get_tasks_queued_unprotected s

/-- `get_tasks_total_unprotected` (src lines 406-409): `tasks_total`. -/
def get_tasks_total_unprotected (s : PoolState) : Nat :=
  s.tasks_total

/-- `get_thread_count` (src lines 109-112): returns `thread_count`.  The
three count getters and this one perform no writes: they are modelled as
pure observations of the state. -/
def get_thread_count (s : PoolState) : Nat :=
  s.thread_count

/-- `push_task(task)` (src lines 175-184): under the lock, append the task
to the queue and increment `tasks_total`; then signal
`task_available_condition_variable.notify_one()` — a single-worker wake. -/
def push_task (s : PoolState) (task : TaskBody) : PoolState × List Event :=
  ({ s with tasks := s.tasks ++ [task], tasks_total := s.tasks_total + 1 },
   [Event.notifyTaskAvailable NotifyKind.one])

/-- `pause()` (src lines 314-316): set `paused = true`; no signal. -/
def pause (s : PoolState) : PoolState × List Event :=
  ({ s with paused := true }, [])

/-- `resume()` (src lines 321-324): set `paused = false`, then
`task_available_condition_variable.notify_all()` — a broadcast wake. -/
def resume (s : PoolState) : PoolState × List Event :=
  ({ s with paused := false }, [Event.notifyTaskAvailable NotifyKind.all])

/-- The predicate under which the wait in `wait_for_tasks()`
(src lines 296-309) completes: if `!paused` then `tasks_total == 0`, else
`get_tasks_running_unprotected() == 0`. -/
def wait_for_tasks_predicate (s : PoolState) : Bool :=
  if !s.paused then s.tasks_total == 0
  else get_tasks_running_unprotected s == 0

/-- `wait_for_tasks()` (src lines 296-309): blocks on
`tasks_done_condition_variable` until `wait_for_tasks_predicate` holds; it
performs no writes to the pool state and signals nothing. -/
def wait_for_tasks (s : PoolState) : PoolState × List Event :=
  (s, [])

/-- `destroy_threads()` (src lines 345-353): signals
`task_available_condition_variable.notify_all()` so that every worker may
observe shutdown, then joins the threads; no pool-state field changes. -/
def destroy_threads (s : PoolState) : PoolState × List Event :=
  (s, [Event.notifyTaskAvailable NotifyKind.all])

/-- `reset(_thread_count)` (src lines 207-221), in program order: remember
`paused` in `was_paused`; `pause()`; `wait_for_tasks()`; `running = false`;
`destroy_threads()`; `thread_count = _thread_count` (again with no
substitution for `0`, despite the doc comment); replace the thread array;
`resume()` if not previously paused; `running = true`; `create_threads()`. -/
def reset (s : PoolState) (c : Nat) : PoolState × List Event :=
  let was_paused := s.paused
  let s1 := (pause s).1
  let s2 := (wait_for_tasks s1).1
  let s3 := { s2 with running := false }
  let s4 := (destroy_threads s3).1
  let s5 := { s4 with thread_count := c }
  let p6 := if !was_paused then resume s5 else (s5, [])
  let s7 := { p6.1 with running := true }
  (s7,
   (pause s).2 ++ (wait_for_tasks s1).2 ++ [Event.runningWrite false] ++
     (destroy_threads s3).2 ++ p6.2 ++ [Event.runningWrite true])

/-- The destructor `~thread_pool()` (src lines 60-65): `wait_for_tasks()`;
`running = false`; `destroy_threads()`. -/
def destructor (s : PoolState) : PoolState × List Event :=
  let s1 := (wait_for_tasks s).1
  let s2 := { s1 with running := false }
  let s3 := (destroy_threads s2).1
  (s3, (wait_for_tasks s).2 ++ [Event.runningWrite false] ++ (destroy_threads s2).2)

/-- One iteration of the dispatch loop body of `worker()`
(src lines 358-379).  After the wait on `task_available_condition_variable`,
if `running && !paused` the worker pops the front task and invokes it with
no lock held.  The invocation `task()` is NOT wrapped in any try/catch: an
exception raised by the body escapes the iteration (second component
`some e`), in which case `--tasks_total` is never executed and
`tasks_done_condition_variable` is not signalled (in C++ the exception then
terminates the worker thread).  On normal return the worker re-acquires the
lock, decrements `tasks_total`, and signals
`tasks_done_condition_variable.notify_one()`. -/
def worker_iteration (s : PoolState) : PoolState × Option Err × List Event :=
  if s.running && !s.paused then
    match s.tasks with
    | [] => (s, none, [])
    | task :: rest =>
      let s1 := { s with tasks := rest }
      match task with
      | Except.error e => (s1, some e, [])
      | Except.ok _ =>
        ({ s1 with tasks_total := s1.tasks_total - 1 }, none,
         [Event.notifyTasksDone NotifyKind.one])
  else (s, none, [])

/-- The writes to the atomic flag `running` contained in an event list, in
program order. -/
def runningWrites (evts : List Event) : List Bool :=
  evts.filterMap fun e =>
    match e with
    | Event.runningWrite b => some b
    | _ => none

/-- The successive values of the flag `running` over an execution whose
events are `evts`, starting from its initialiser `running{true}`. -/
def runningHistory (evts : List Event) : List Bool :=
  true :: runningWrites evts

/-- The state of a `std::promise` cell created by `submit`: not yet
satisfied, holding a value, or holding a captured exception. -/
inductive PromiseState (α : Type)
  | unset
  | value (a : α)
  | exn (e : Err)

/-- The body of the lambda pushed by the void overload of `submit`
(src lines 232-256): `try { task(args...); task_promise->set_value(true); }
catch (...) { try { set_exception } catch (...) {} }`.  Given the outcome
of the wrapped callable it yields the resulting promise state and the
exception, if any, that escapes the lambda itself — by construction none
ever does. -/
def submit_void_wrapped_run (body : Except Err Unit) : PromiseState Bool × Option Err :=
  match body with
  | Except.ok _ => (PromiseState.value true, none)
  | Except.error e => (PromiseState.exn e, none)

/-- The body of the lambda pushed by the value overload of `submit`
(src lines 268-291): `try { task_promise->set_value(task(args...)); }
catch (...) { try { set_exception } catch (...) {} }`. -/
def submit_value_wrapped_run (α : Type) (body : Except Err α) : PromiseState α × Option Err :=
  match body with
  | Except.ok v => (PromiseState.value v, none)
  | Except.error e => (PromiseState.exn e, none)

/-- `std::future::get` on the future returned by `submit`: blocks while the
promise is unset (`none`), returns the stored value, or re-raises the
stored exception to the observer. -/
def future_get (α : Type) : PromiseState α → Option (Except Err α)
  | PromiseState.unset => none
  | PromiseState.value a => some (Except.ok a)
  | PromiseState.exn e => some (Except.error e)

/-- The queued `TaskBody` corresponding to the lambda pushed by the void
overload of `submit`: it raises exactly what escapes
`submit_void_wrapped_run`. -/
def submit_void_task_body (body : Except Err Unit) : TaskBody :=
  match (submit_void_wrapped_run body).2 with
  | none => Except.ok ()
  | some e => Except.error e

/-- The queued `TaskBody` corresponding to the lambda pushed by the value
overload of `submit`. -/
def submit_value_task_body (α : Type) (body : Except Err α) : TaskBody :=
  match (submit_value_wrapped_run α body).2 with
  | none => Except.ok ()
  | some e => Except.error e

/-- The pool-state effect of the void overload of `submit` (src lines
232-256): a single `push_task` of the wrapping lambda. -/
def submit_void_push (s : PoolState) (body : Except Err Unit) : PoolState × List Event :=
  push_task s (submit_void_task_body body)

/-- The pool-state effect of the value overload of `submit` (src lines
268-291): a single `push_task` of the wrapping lambda. -/
def submit_value_push (s : PoolState) (body : Except Err Nat) : PoolState × List Event :=
  push_task s (submit_value_task_body Nat body)

/-- The block list computed by `thread_pool::parallelize_loop`
(src lines 139-164) once the indices have been normalised to ascending
order by lines 128-138: `last_index--`; default `num_blocks` to
`thread_count` when `0`; `total_size = last_index - the_first_index + 1`;
`block_size = total_size / num_blocks`; if that is `0`, use `block_size = 1`
and `num_blocks = total_size > 1 ? total_size : 1`; block `t` then spans
`[t * block_size + the_first_index, (t+1) * block_size + the_first_index)`,
except the final block which ends at `last_index + 1`. -/
def parallelize_core (the_first_index index_after_last : Int)
    (num_blocks thread_count : Nat) : List (Int × Int) :=
  let last_index := index_after_last - 1
  let nb0 := if num_blocks = 0 then thread_count else num_blocks
  let total_size : Nat := (last_index - the_first_index + 1).toNat
  let bs0 := total_size / nb0
  let block_size := if bs0 = 0 then 1 else bs0
  let nb := if bs0 = 0 then (if 1 < total_size then total_size else 1) else nb0
  (List.range nb).map fun t =>
    (the_first_index + ((t * block_size : Nat) : Int),
     if t = nb - 1 then last_index + 1
     else the_first_index + (((t + 1) * block_size : Nat) : Int))

/-- The `(start, end)` pairs on which `parallelize_loop`
(src lines 125-167) invokes the loop function, one `push_task` per pair:
an equal-bounds range yields nothing (lines 131-132), reversed bounds are
swapped (lines 133-138), and the rest is `parallelize_core`. -/
def parallelize_loop (first_index index_after_last : Int)
    (num_blocks thread_count : Nat) : List (Int × Int) :=
  if first_index = index_after_last then []
  else if index_after_last < first_index then
    parallelize_core index_after_last first_index num_blocks thread_count
  else
    parallelize_core first_index index_after_last num_blocks thread_count

/-- The pool-state effect of `parallelize_loop`: one `push_task` per block,
in block order; `outcome start end` is the outcome of the caller's loop
function on that block (the barrier bookkeeping of the pushed lambda raises
nothing of its own). -/
def parallelize_push_all (s : PoolState) (first_index index_after_last : Int)
    (num_blocks : Nat) (outcome : Int → Int → TaskBody) : PoolState :=
  ((parallelize_loop first_index index_after_last num_blocks s.thread_count).map
      fun b => outcome b.1 b.2).foldl
    (fun st t => (push_task st t).1) s

/-- The pool states reachable through the lock-protected transitions of the
source: construction, `push_task`'s enqueue (src lines 178-182), a worker
claiming the front task (src lines 364-368, requires `running && !paused`
and a non-empty queue), a worker finishing a claimed task (src line 373,
enabled while some claimed task is in flight, i.e. `tasks.size() <
tasks_total`), `pause`, `resume`, and `reset`.  Each constructor's target
is an observation point at which the lock is held (or, for the flag
operations, the state seen at the next lock acquisition). -/
inductive Reachable : PoolState → Prop
  | init (n : Nat) : Reachable (construct n)
  | push (s : PoolState) (t : TaskBody) : Reachable s → Reachable (push_task s t).1
  | claim_front (s : PoolState) (t : TaskBody) (rest : List TaskBody) :
      Reachable s → s.running = true → s.paused = false → s.tasks = t :: rest →
      Reachable { s with tasks := rest }
  | finish (s : PoolState) : Reachable s → s.tasks.length < s.tasks_total →
      Reachable { s with tasks_total := s.tasks_total - 1 }
  | do_pause (s : PoolState) : Reachable s → Reachable (pause s).1
  | do_resume (s : PoolState) : Reachable s → Reachable (resume s).1
  | do_reset (s : PoolState) (n : Nat) : Reachable s → Reachable (reset s n).1

/-- A concrete pool state: one enqueued task whose body raises exception
`7`, one outstanding task, running, not paused, one thread. -/
def c2_state : PoolState :=
  ⟨[Except.error 7], 1, true, false, 1⟩

/-- `Chained a bl b` says that the interval list `bl` is a gapless chain of
non-empty intervals from `a` to `b`: the first interval starts at `a`, each
interval is non-empty and ends where the next begins, and the last ends at
`b`. -/
def Chained : Int → List (Int × Int) → Int → Prop
  | a, [], b => a = b
  | a, p :: rest, b => a = p.1 ∧ p.1 < p.2 ∧ Chained p.2 rest b

/-- Claim C1 (code_bug evidence): the constructor and `reset` do NOT
substitute the hardware concurrency for a zero thread count — contrary to
the claim and to the source's own doc comments (src lines 49 and 205,
"If the argument is zero, the default value will be used instead").
`thread_pool(0)` stores `thread_count = 0` (src line 52) and `reset(0)`
stores `thread_count = 0` (src line 214), so `thread_count()` IS `0`
afterwards, never the hardware concurrency (which is at least 1). -/
theorem C1_zero_thread_count_kept :
    (construct 0).thread_count = 0 ∧
    get_thread_count (construct 0) = 0 ∧
    (reset (construct 3) 0).1.thread_count = 0 ∧
    get_thread_count (reset (construct 3) 0).1 = 0 := by
  decide

/-- Claim C2 (counterexample): a task pushed via `push_task` whose body
raises exception `7`, executed by a worker on a running, unpaused pool, is
NOT caught at the task boundary: the exception escapes the worker's
iteration (second component `some 7`, terminating the worker thread in
C++), and `tasks_total` is NOT decremented — it is still `1` afterwards —
because `--tasks_total` (src line 373) is skipped when `task()`
(src line 370, unguarded by any try/catch) throws. -/
theorem C2_push_task_failure_counterexample :
    (worker_iteration c2_state).2.1 = some 7 ∧
    (worker_iteration c2_state).1.tasks_total = 1 ∧
    (worker_iteration c2_state).2.2 = [] := by
  decide

/-- Claim C2 (amended): whenever the front of the queue is a task whose
body raises `e` and the pool is running and not paused, the worker's
dispatch iteration lets `e` escape uncontained (in C++ this terminates the
worker thread), leaves the Outstanding Counter `tasks_total` undecremented,
has already removed the task from the queue, and signals no completion.
Only `submit`-wrapped callables have their failures captured (see C3). -/
theorem C2_push_task_failure_escapes (s : PoolState) (e : Err) (rest : List TaskBody)
    (h1 : s.running = true) (h2 : s.paused = false) (h3 : s.tasks = Except.error e :: rest) :
    (worker_iteration s).2.1 = some e ∧
    (worker_iteration s).1.tasks_total = s.tasks_total ∧
    (worker_iteration s).1.tasks = rest ∧
    (worker_iteration s).2.2 = [] := by
  simp [worker_iteration, h1, h2, h3]

/-- Witness for C2_push_task_failure_escapes at the concrete state
`c2_state`. -/
theorem C2_push_task_failure_escapes_witness :
    (worker_iteration c2_state).2.1 = some 7 ∧
    (worker_iteration c2_state).1.tasks_total = c2_state.tasks_total ∧
    (worker_iteration c2_state).1.tasks = [] ∧
    (worker_iteration c2_state).2.2 = [] :=
  C2_push_task_failure_escapes c2_state 7 [] rfl rfl rfl

/-- Claim C3 (confirmed): for both overloads of `submit`, a callable that
raises `e` has the failure captured by the wrapping lambda the worker runs:
nothing escapes the lambda (second component `none`, so the failure never
surfaces in the worker, and the queued task body the worker executes is a
normally-returning one), the promise is set to the captured exception
instead of a value, and the observer retrieving the result via the future
receives that same failure `e`, re-raised at retrieval. -/
theorem C3_submit_failure_delivered_to_handle (α : Type) (e : Err) :
    (submit_void_wrapped_run (Except.error e)).2 = none ∧
    (submit_void_wrapped_run (Except.error e)).1 = PromiseState.exn e ∧
    (submit_value_wrapped_run α (Except.error e)).2 = none ∧
    (submit_value_wrapped_run α (Except.error e)).1 = PromiseState.exn e ∧
    submit_void_task_body (Except.error e) = Except.ok () ∧
    submit_value_task_body α (Except.error e) = Except.ok () ∧
    future_get Bool (PromiseState.exn e) = some (Except.error e) ∧
    future_get α (PromiseState.exn e) = some (Except.error e) := by
  refine ⟨rfl, rfl, rfl, rfl, rfl, rfl, rfl, rfl⟩

/-- Claim C4 (confirmed): the predicate on which `wait_for_tasks()` blocks
holds exactly at quiescence — when not paused, exactly when the total
outstanding count is `0`; when paused, exactly when the running count is
`0`, even though the queued count may remain nonzero (third conjunct
exhibits a paused state with a nonzero queue on which the predicate
holds) — and `wait_for_tasks` writes nothing: in particular it neither
pauses nor resumes the pool. -/
theorem C4_wait_for_tasks_quiescence (s : PoolState) :
    (wait_for_tasks_predicate s = true ↔
      (if s.paused then get_tasks_running_unprotected s = 0
       else get_tasks_total_unprotected s = 0)) ∧
    (wait_for_tasks s).1 = s ∧
    (wait_for_tasks s).1.paused = s.paused ∧
    (wait_for_tasks s).2 = [] ∧
    (∃ s' : PoolState, s'.paused = true ∧ 0 < get_tasks_queued_unprotected s' ∧
      wait_for_tasks_predicate s' = true) := by
  refine ⟨?_, rfl, rfl, rfl, ⟨⟨[Except.ok ()], 1, true, true, 1⟩, rfl, by decide, by decide⟩⟩
  unfold wait_for_tasks_predicate get_tasks_total_unprotected
  cases h : s.paused <;> simp

/-- Claim C6 (counterexample): `reset` sets `running` back to `true` after
having set it to `false`.  Constructing a pool and calling `reset(2)` gives
the `running`-value history `[true, false, true]` (src lines 212 and 219),
so the history does not satisfy "once false, false forever" — already its
adjacent pair `(false, true)` violates it. -/
theorem C6_running_rises_again_counterexample :
    runningHistory (reset (construct 3) 2).2 = [true, false, true] ∧
    ¬ List.Chain' (fun a b => a = false → b = false)
        (runningHistory (reset (construct 3) 2).2) := by
  have h : runningHistory (reset (construct 3) 2).2 = [true, false, true] := by decide
  refine ⟨h, ?_⟩
  rw [h]
  simp [List.chain'_cons]

/-- Claim C6 (amended): `running` starts `true`; `push_task`, `pause`,
`resume` and `wait_for_tasks` never write it; the destructor writes it
exactly once, to `false`, permanently (src line 63); but `reset` writes it
twice — `false` while the old workers are joined, then back to `true`
before the new workers are spawned (src lines 212 and 219) — so after
`reset` the pool is running again. -/
theorem C6_running_flag_writes (s : PoolState) (t : TaskBody) (n m : Nat) :
    (construct n).running = true ∧
    runningWrites (push_task s t).2 = [] ∧
    runningWrites (pause s).2 = [] ∧
    runningWrites (resume s).2 = [] ∧
    runningWrites (wait_for_tasks s).2 = [] ∧
    runningWrites (destructor s).2 = [false] ∧
    (destructor s).1.running = false ∧
    runningWrites (reset s m).2 = [false, true] ∧
    (reset s m).1.running = true := by
  refine ⟨rfl, rfl, rfl, rfl, rfl, rfl, rfl, ?_, ?_⟩ <;>
    cases h : s.paused <;>
      simp [reset, runningWrites, pause, resume, wait_for_tasks, destroy_threads, h]

/-- Claim C9 (counterexample): the signal sent on task enqueue is NOT a
broadcast: `push_task` signals `task_available_condition_variable` with
`notify_one` (src line 183), a single-worker wake. -/
theorem C9_push_task_notifies_one_counterexample :
    (push_task (construct 1) (Except.ok ())).2 =
      [Event.notifyTaskAvailable NotifyKind.one] ∧
    NotifyKind.one ≠ NotifyKind.all := by
  decide

/-- Claim C9 (amended): `resume` (src line 323) and shutdown's
`destroy_threads` (src line 348) broadcast the task-available condition
with `notify_all`, waking every worker; the destructor's and `reset`'s
event sequences each contain that broadcast; but each task enqueue signals
only a single worker with `notify_one` (src line 183). -/
theorem C9_notify_kinds (s : PoolState) (t : TaskBody) :
    (push_task s t).2 = [Event.notifyTaskAvailable NotifyKind.one] ∧
    (resume s).2 = [Event.notifyTaskAvailable NotifyKind.all] ∧
    (destroy_threads s).2 = [Event.notifyTaskAvailable NotifyKind.all] ∧
    Event.notifyTaskAvailable NotifyKind.all ∈ (destructor s).2 ∧
    Event.notifyTaskAvailable NotifyKind.all ∈ (reset s 2).2 := by
  refine ⟨rfl, rfl, rfl, ?_, ?_⟩ <;>
    cases h : s.paused <;>
      simp [reset, destructor, pause, resume, wait_for_tasks, destroy_threads, h]

/-- Claim C10 (confirmed): `thread_count` is changed only by `reset`:
`push_task`, both `submit` overloads, `parallelize_loop`'s pushes, `pause`,
`resume` and `wait_for_tasks` leave it unchanged (the three count getters
and `get_thread_count` are pure observations and mutate nothing), while
`reset(n)` sets it to exactly its argument `n` (src line 214). -/
theorem C10_thread_count_frame (s : PoolState) (t : TaskBody)
    (body : Except Err Unit) (vbody : Except Err Nat) (f l : Int) (nb : Nat)
    (outcome : Int → Int → TaskBody) (n : Nat) :
    (push_task s t).1.thread_count = s.thread_count ∧
    (submit_void_push s body).1.thread_count = s.thread_count ∧
    (submit_value_push s vbody).1.thread_count = s.thread_count ∧
    (parallelize_push_all s f l nb outcome).thread_count = s.thread_count ∧
    (pause s).1.thread_count = s.thread_count ∧
    (resume s).1.thread_count = s.thread_count ∧
    (wait_for_tasks s).1.thread_count = s.thread_count ∧
    get_thread_count s = s.thread_count ∧
    (reset s n).1.thread_count = n := by
  refine ⟨rfl, rfl, rfl, ?_, rfl, rfl, rfl, rfl, ?_⟩
  · unfold parallelize_push_all
    generalize (parallelize_loop f l nb s.thread_count).map (fun b => outcome b.1 b.2) = ts
    induction ts generalizing s with
    | nil => rfl
    | cons hd tl ih => exact (ih { s with tasks := s.tasks ++ [hd], tasks_total := s.tasks_total + 1 })
  · cases h : s.paused <;> simp [reset, pause, resume, wait_for_tasks, destroy_threads, h]

/-- Claim C7 (confirmed): in every state reachable through the
lock-protected transitions (in particular after every enqueue and after
every task completion), the queue never exceeds the Outstanding Counter —
so the `ui32` subtraction computing the running count never underflows and
none of the three counts is ever negative — and the identity
`queued_count + running_count = total_count` holds. -/
theorem C7_counts_invariant (s : PoolState) (h : Reachable s) :
    get_tasks_queued_unprotected s ≤ get_tasks_total_unprotected s ∧
    get_tasks_queued_unprotected s + get_tasks_running_unprotected s =
      get_tasks_total_unprotected s := by
  have key : get_tasks_queued_unprotected s ≤ get_tasks_total_unprotected s := by
    unfold get_tasks_queued_unprotected get_tasks_total_unprotected
    induction h with
    | init n => simp [construct]
    | push s t _ ih => simp [push_task]; omega
    | claim_front s t rest _ hr hp htks ih => simp [htks] at ih ⊢; omega
    | finish s _ hlt ih => simp at ih ⊢; omega
    | do_pause s _ ih => simpa [pause] using ih
    | do_resume s _ ih => simpa [resume] using ih
    | do_reset s n _ ih =>
      cases hpz : s.paused <;>
        simpa [reset, pause, resume, wait_for_tasks, destroy_threads, hpz] using ih
  refine ⟨key, ?_⟩
  unfold get_tasks_running_unprotected
  unfold get_tasks_queued_unprotected get_tasks_total_unprotected at key ⊢
  omega

/-- Witness for C7_counts_invariant: the state reached by constructing a
two-thread pool, enqueuing one task and letting a worker claim and finish
it satisfies the counter identity. -/
theorem C7_counts_invariant_witness :
    get_tasks_queued_unprotected (push_task (construct 2) (Except.ok ())).1 ≤
      get_tasks_total_unprotected (push_task (construct 2) (Except.ok ())).1 ∧
    get_tasks_queued_unprotected (push_task (construct 2) (Except.ok ())).1 +
        get_tasks_running_unprotected (push_task (construct 2) (Except.ok ())).1 =
      get_tasks_total_unprotected (push_task (construct 2) (Except.ok ())).1 :=
  C7_counts_invariant (push_task (construct 2) (Except.ok ())).1
    (Reachable.push (construct 2) (Except.ok ()) (Reachable.init 2))

lemma chained_le (bl : List (Int × Int)) : ∀ a b : Int, Chained a bl b → a ≤ b := by
  induction bl with
  | nil => intro a b h; exact le_of_eq h
  | cons p rest ih =>
    intro a b h
    obtain ⟨h1, h2, h3⟩ := h
    have := ih p.2 b h3
    omega

lemma chained_start_le (bl : List (Int × Int)) :
    ∀ a b : Int, Chained a bl b → ∀ p ∈ bl, a ≤ p.1 := by
  induction bl with
  | nil => intro a b _ p hp; cases hp
  | cons q rest ih =>
    intro a b h p hp
    obtain ⟨h1, h2, h3⟩ := h
    rcases List.mem_cons.mp hp with hq | hq
    · subst hq; omega
    · have := ih q.2 b h3 p hq
      omega

lemma chained_mem_lt (bl : List (Int × Int)) :
    ∀ a b : Int, Chained a bl b → ∀ p ∈ bl, p.1 < p.2 := by
  induction bl with
  | nil => intro a b _ p hp; cases hp
  | cons q rest ih =>
    intro a b h p hp
    obtain ⟨h1, h2, h3⟩ := h
    rcases List.mem_cons.mp hp with hq | hq
    · subst hq; exact h2
    · exact ih q.2 b h3 p hq

lemma chained_mem_iff (bl : List (Int × Int)) :
    ∀ a b : Int, Chained a bl b →
      ∀ x : Int, (∃ p ∈ bl, p.1 ≤ x ∧ x < p.2) ↔ a ≤ x ∧ x < b := by
  induction bl with
  | nil =>
    intro a b h x
    have hab : a = b := h
    subst hab
    constructor
    · rintro ⟨p, hp, _⟩; cases hp
    · intro hx; exact absurd hx (by omega)
  | cons q rest ih =>
    intro a b h x
    obtain ⟨h1, h2, h3⟩ := h
    have hqb : q.2 ≤ b := chained_le rest q.2 b h3
    have hrest := ih q.2 b h3 x
    constructor
    · rintro ⟨p, hp, hx1, hx2⟩
      rcases List.mem_cons.mp hp with hq | hq
      · subst hq; omega
      · have := hrest.mp ⟨p, hq, hx1, hx2⟩
        omega
    · intro hx
      by_cases hcase : x < q.2
      · exact ⟨q, List.mem_cons_self q rest, by omega, hcase⟩
      · obtain ⟨p, hp, hpx⟩ := hrest.mpr (by omega)
        exact ⟨p, List.mem_cons_of_mem q hp, hpx⟩

lemma chained_pairwise (bl : List (Int × Int)) :
    ∀ a b : Int, Chained a bl b → List.Pairwise (fun p q : Int × Int => p.2 ≤ q.1) bl := by
  induction bl with
  | nil => intro a b _; exact List.Pairwise.nil
  | cons q rest ih =>
    intro a b h
    obtain ⟨h1, h2, h3⟩ := h
    exact List.Pairwise.cons (chained_start_le rest q.2 b h3) (ih q.2 b h3)

lemma chained_append (xs : List (Int × Int)) :
    ∀ (ys : List (Int × Int)) (a b c : Int),
      Chained a xs b → Chained b ys c → Chained a (xs ++ ys) c := by
  induction xs with
  | nil =>
    intro ys a b c h1 h2
    have hab : a = b := h1
    subst hab
    simpa using h2
  | cons p rest ih =>
    intro ys a b c h1 h2
    obtain ⟨ha, hlt, hch⟩ := h1
    exact ⟨ha, hlt, ih ys p.2 b c hch h2⟩

lemma chained_range_map (g : Nat → Int) :
    ∀ n : Nat, (∀ t, t < n → g t < g (t + 1)) →
      Chained (g 0) ((List.range n).map fun t => (g t, g (t + 1))) (g n) := by
  intro n
  induction n with
  | zero => intro _; rfl
  | succ m ih =>
    intro hg
    rw [List.range_succ, List.map_append]
    refine chained_append _ _ (g 0) (g m) (g (m + 1)) (ih fun t ht => hg t (by omega)) ?_
    exact ⟨rfl, hg m (by omega), rfl⟩

lemma parallelize_core_eq (f l : Int) (nb tc : Nat) (h1 : f < l) (h2 : 1 ≤ nb) :
    parallelize_core f l nb tc =
      (List.range (min nb (l - f).toNat)).map fun t =>
        (f + ((t * ((l - f).toNat / min nb (l - f).toNat) : Nat) : Int),
         if t = min nb (l - f).toNat - 1 then l
         else f + (((t + 1) * ((l - f).toNat / min nb (l - f).toNat) : Nat) : Int)) := by
  have hnb : ¬ nb = 0 := by omega
  have htot : l - 1 - f + 1 = l - f := by ring
  have hl : l - 1 + 1 = l := by ring
  have hT1 : 1 ≤ (l - f).toNat := by omega
  simp only [parallelize_core, if_neg hnb, htot, hl]
  by_cases hb : (l - f).toNat / nb = 0
  · have hTnb : (l - f).toNat < nb := (Nat.div_eq_zero_iff (by omega)).mp hb
    have hmin : min nb (l - f).toNat = (l - f).toNat := by omega
    have hT' : (if 1 < (l - f).toNat then (l - f).toNat else 1) = (l - f).toNat := by
      split <;> omega
    simp only [if_pos hb, hT', hmin, Nat.div_self (show 0 < (l - f).toNat by omega)]
  · have hnbT : nb ≤ (l - f).toNat := by
      by_contra hc
      push_neg at hc
      exact hb (Nat.div_eq_of_lt hc)
    have hmin : min nb (l - f).toNat = nb := by omega
    simp only [if_neg hb, hmin]

lemma blocks_spec (f l : Int) (nb T bc bs : Nat) (bl : List (Int × Int))
    (hbl : bl = (List.range bc).map fun t =>
        (f + ((t * bs : Nat) : Int),
         if t = bc - 1 then l else f + (((t + 1) * bs : Nat) : Int)))
    (hbs1 : 1 ≤ bs) (hbc1 : 1 ≤ bc) (hbcnb : bc ≤ nb)
    (hmul : bc * bs ≤ T) (hTl : (T : Int) = l - f) :
    bl.length = bc ∧
    1 ≤ bl.length ∧
    bl.length ≤ nb ∧
    (∀ p ∈ bl, p.1 < p.2) ∧
    (∀ x : Int, (∃ p ∈ bl, p.1 ≤ x ∧ x < p.2) ↔ f ≤ x ∧ x < l) ∧
    List.Pairwise (fun p q : Int × Int => p.2 ≤ q.1) bl ∧
    (∀ i : Fin bl.length, (i : Nat) + 1 < bl.length →
        (bl.get i).2 - (bl.get i).1 = (bs : Int)) ∧
    (∀ i : Fin bl.length, (i : Nat) + 1 = bl.length →
        (bl.get i).2 - (bl.get i).1 = ((T - (bc - 1) * bs : Nat) : Int)) := by
  subst hbl
  have hlast : (bc - 1) * bs < T := by
    have h2' : (bc - 1) * bs + bs = bc * bs := by
      have hbc' : bc - 1 + 1 = bc := by omega
      calc (bc - 1) * bs + bs = (bc - 1 + 1) * bs := by ring
        _ = bc * bs := by rw [hbc']
    omega
  have hchain : Chained f ((List.range bc).map fun t =>
      (f + ((t * bs : Nat) : Int),
       if t = bc - 1 then l else f + (((t + 1) * bs : Nat) : Int))) l := by
    have hmono : ∀ t, t < bc →
        (fun u => if u < bc then f + ((u * bs : Nat) : Int) else l) t <
        (fun u => if u < bc then f + ((u * bs : Nat) : Int) else l) (t + 1) := by
      intro t ht
      simp only
      rw [if_pos ht]
      by_cases ht1 : t + 1 < bc
      · rw [if_pos ht1]
        have hstep : t * bs + bs = (t + 1) * bs := by ring
        omega
      · rw [if_neg ht1]
        have ht' : t = bc - 1 := by omega
        subst ht'
        omega
    have hmapg : ((List.range bc).map fun t =>
        (f + ((t * bs : Nat) : Int),
         if t = bc - 1 then l else f + (((t + 1) * bs : Nat) : Int))) =
        (List.range bc).map fun t =>
          ((fun u => if u < bc then f + ((u * bs : Nat) : Int) else l) t,
           (fun u => if u < bc then f + ((u * bs : Nat) : Int) else l) (t + 1)) := by
      apply List.map_congr_left
      intro t ht
      have htbc : t < bc := List.mem_range.mp ht
      simp only
      rw [if_pos htbc]
      by_cases hcase : t = bc - 1
      · rw [if_pos hcase, if_neg (by omega : ¬ t + 1 < bc)]
      · rw [if_neg hcase, if_pos (by omega : t + 1 < bc)]
    rw [hmapg]
    have hres := chained_range_map
        (fun u => if u < bc then f + ((u * bs : Nat) : Int) else l) bc hmono
    simpa [show (0 : Nat) < bc by omega, lt_irrefl] using hres
  refine ⟨by simp, by simpa using hbc1, by simpa using hbcnb,
          chained_mem_lt _ f l hchain,
          fun x => chained_mem_iff _ f l hchain x,
          chained_pairwise _ f l hchain, ?_, ?_⟩
  · intro i hi
    have hi2 : (i : Nat) < bc := by simpa using i.isLt
    have hi3 : ¬ (i : Nat) = bc - 1 := by
      simp only [List.length_map, List.length_range] at hi
      omega
    rw [List.get_eq_getElem, List.getElem_map, List.getElem_range]
    simp only [if_neg hi3]
    have hstep : (i : Nat) * bs + bs = ((i : Nat) + 1) * bs := by ring
    omega
  · intro i hi
    have hi2 : (i : Nat) < bc := by simpa using i.isLt
    have hi3 : (i : Nat) = bc - 1 := by
      simp only [List.length_map, List.length_range] at hi
      omega
    rw [List.get_eq_getElem, List.getElem_map, List.getElem_range]
    rw [hi3]
    rw [if_pos rfl]
    rw [Nat.cast_sub (le_of_lt hlast)]
    omega

/-- Claim C5 (confirmed): on a non-empty ascending range `[f, l)` with
`num_blocks ≥ 1`, writing `total = l - f` and `block_count =
min num_blocks total`, the blocks produced by `parallelize_loop` number
exactly `block_count` (so at least `1` and at most `num_blocks`), are each
non-empty, cover `[f, l)` exactly (a point lies in some block iff it lies
in `[f, l)`), are pairwise non-overlapping (blocks are listed in order,
each ending no later than the next begins), every non-final block has size
`total / block_count`, and the final block absorbs the remainder, having
size `total - (block_count - 1) * (total / block_count)`. -/
theorem C5_parallelize_partition (f l : Int) (nb tc : Nat) (h1 : f < l) (h2 : 1 ≤ nb) :
    (parallelize_loop f l nb tc).length = min nb (l - f).toNat ∧
    1 ≤ (parallelize_loop f l nb tc).length ∧
    (parallelize_loop f l nb tc).length ≤ nb ∧
    (∀ p ∈ parallelize_loop f l nb tc, p.1 < p.2) ∧
    (∀ x : Int, (∃ p ∈ parallelize_loop f l nb tc, p.1 ≤ x ∧ x < p.2) ↔ f ≤ x ∧ x < l) ∧
    List.Pairwise (fun p q : Int × Int => p.2 ≤ q.1) (parallelize_loop f l nb tc) ∧
    (∀ i : Fin (parallelize_loop f l nb tc).length,
        (i : Nat) + 1 < (parallelize_loop f l nb tc).length →
        ((parallelize_loop f l nb tc).get i).2 - ((parallelize_loop f l nb tc).get i).1 =
          (((l - f).toNat / min nb (l - f).toNat : Nat) : Int)) ∧
    (∀ i : Fin (parallelize_loop f l nb tc).length,
        (i : Nat) + 1 = (parallelize_loop f l nb tc).length →
        ((parallelize_loop f l nb tc).get i).2 - ((parallelize_loop f l nb tc).get i).1 =
          (((l - f).toNat - (min nb (l - f).toNat - 1) *
              ((l - f).toNat / min nb (l - f).toNat) : Nat) : Int)) := by
  have hne : ¬ f = l := by omega
  have hnlt : ¬ l < f := by omega
  have hbl : parallelize_loop f l nb tc =
      (List.range (min nb (l - f).toNat)).map fun t =>
        (f + ((t * ((l - f).toNat / min nb (l - f).toNat) : Nat) : Int),
         if t = min nb (l - f).toNat - 1 then l
         else f + (((t + 1) * ((l - f).toNat / min nb (l - f).toNat) : Nat) : Int)) := by
    rw [parallelize_loop, if_neg hne, if_neg hnlt, parallelize_core_eq f l nb tc h1 h2]
  have hbc1 : 1 ≤ min nb (l - f).toNat := by omega
  have hbcnb : min nb (l - f).toNat ≤ nb := by omega
  have hbs1 : 1 ≤ (l - f).toNat / min nb (l - f).toNat :=
    (Nat.one_le_div_iff (by omega)).mpr (by omega)
  have hmul : min nb (l - f).toNat * ((l - f).toNat / min nb (l - f).toNat) ≤
      (l - f).toNat := by
    rw [Nat.mul_comm]
    exact Nat.div_mul_le_self _ _
  have hTl : (((l - f).toNat : Nat) : Int) = l - f := by omega
  exact blocks_spec f l nb ((l - f).toNat) (min nb (l - f).toNat)
    ((l - f).toNat / min nb (l - f).toNat) (parallelize_loop f l nb tc) hbl
    hbs1 hbc1 hbcnb hmul hTl

/-- Witness for C5_parallelize_partition at the spec's own example
`parallelize(0, 97, block_fn, 10)`. -/
theorem C5_parallelize_partition_witness :
    (parallelize_loop 0 97 10 4).length = min 10 ((97 : Int) - 0).toNat ∧
    1 ≤ (parallelize_loop 0 97 10 4).length := by
  have h := C5_parallelize_partition 0 97 10 4 (by decide) (by decide)
  exact ⟨h.1, h.2.1⟩

/-- Claim C8 (confirmed): `parallelize_loop` on an empty range
(`f = l`, src lines 131-132) produces no blocks, so the loop function is
invoked zero times; and on reversed bounds (`l < f`, src lines 133-138) it
swaps them, producing exactly the blocks of the call with the bounds in
ascending order.  Neither input is an error. -/
theorem C8_parallelize_degenerate (f l : Int) (nb tc : Nat) :
    (f = l → parallelize_loop f l nb tc = []) ∧
    (l < f → parallelize_loop f l nb tc = parallelize_loop l f nb tc) := by
  constructor
  · intro h
    simp [parallelize_loop, h]
  · intro h
    have ha : ¬ f = l := by omega
    have hb : ¬ l = f := by omega
    have hc : ¬ f < l := by omega
    rw [parallelize_loop, if_neg ha, if_pos h]
    rw [parallelize_loop, if_neg hb, if_neg hc]

/-- Witness for C8_parallelize_degenerate: the spec's example
`parallelize(5, 5, block_fn)` yields no blocks, and a reversed call
`parallelize(9, 3, ...)` equals the ascending call `parallelize(3, 9, ...)`. -/
theorem C8_parallelize_degenerate_witness :
    parallelize_loop 5 5 3 4 = [] ∧
    parallelize_loop 9 3 3 4 = parallelize_loop 3 9 3 4 :=
  ⟨(C8_parallelize_degenerate 5 5 3 4).1 rfl,
   (C8_parallelize_degenerate 9 3 3 4).2 (by decide)⟩

end thread_pool
